import Mathlib

/-!
Verification development for the cityvibe repository.

The repository has two layers:
* a Next.js demo front end (src/apps/web and the server action file with
  `submitUserMessage`), embedded here directly from the TypeScript source; and
* an event ingestion / hybrid retrieval core described by the specification and
  the repository documentation (packages/cityvibe-etl, services), whose Python
  implementation files are not present under src/; those parts are modelled
  from the specification and marked as such in their doc comments.

JavaScript strings are modelled as Lean `String`, numbers as `Int`/`Nat`/`ℚ`,
and fallible external calls as `Except Unit`.
-/

namespace Cityvibe

/-- Lowercase a string character by character, as JavaScript `toLowerCase`
behaves on the ASCII strings occurring in this code base. -/
def lowerStr (s : String) : String := ⟨s.data.map Char.toLower⟩

/-- Boolean test that the first character list starts the second one. -/
def leadsChars : List Char → List Char → Bool
  | [], _ => true
  | _ :: _, [] => false
  | a :: as, b :: bs => a == b && leadsChars as bs

/-- Boolean substring test on character lists, with the semantics of
JavaScript `String.prototype.includes` (the empty needle is always found). -/
def containsChars (needle : List Char) : List Char → Bool
  | [] => needle.isEmpty
  | c :: t => leadsChars needle (c :: t) || containsChars needle t

/-- Substring test on strings: `strContains hay needle` is true when `needle`
occurs contiguously inside `hay`. -/
def strContains (hay needle : String) : Bool := containsChars needle.data hay.data

/-! ## Data shapes of the web front end (src/apps/web/app/components) -/

/-- Event card payload, after the `EventData` interface in event-card.tsx. -/
structure EventData where
  id : String
  title : String
  image : String
  time : String
  location : String
  price : String
  category : String
  source : String
  description : Option String
deriving DecidableEq

/-- Route of a city walk, after the `route` field of `CityWalkData`. -/
structure WalkRoute where
  name : String
  waypoints : List String
deriving DecidableEq

/-- City walk payload, after the `CityWalkData` interface in city-walk.tsx. -/
structure CityWalkData where
  id : String
  title : String
  description : String
  distance : String
  duration : String
  location : String
  route : WalkRoute
  difficulty : Option String
  source : String
deriving DecidableEq

/-- Weather card payload, after the `WeatherEventData` interface in
weather-event-card.tsx; the `WeatherType` union is kept as a string. -/
structure WeatherEventData where
  id : String
  location : String
  weatherType : String
  temperature : String
  condition : String
  precipitation : Option String
  humidity : Option String
  windSpeed : Option String
deriving DecidableEq

/-! ## Mock MCP data generators (server action file, section 4) -/

/-- Fixture list returned by `mockUitAgendaRotterdam`. -/
def uitAgendaRotterdamData : List EventData :=
  [{ id := "rot-1", title := "Techno Bunker Night",
     image := "https://images.unsplash.com/photo-1574391884720-2e45549d7733?q=80&w=1000",
     time := "Tonight, 23:00", location := "Perron, Rotterdam", price := "€15.00",
     category := "Clubbing", source := "uitagenda-rotterdam",
     description := some "Underground techno night featuring local and international DJs. Dark, industrial vibes." },
   { id := "rot-2", title := "Jazz at Bird",
     image := "https://images.unsplash.com/photo-1511192336575-5a79af67a629?q=80&w=1000",
     time := "Tonight, 20:30", location := "Bird, Rotterdam", price := "Free",
     category := "Live Music", source := "uitagenda-rotterdam",
     description := some "Intimate jazz session with local musicians. Cozy atmosphere, great cocktails." },
   { id := "rot-3", title := "Theater Rotterdam: Modern Dance",
     image := "https://images.unsplash.com/photo-1508700115892-45ecd05ae2ad?q=80&w=1000",
     time := "Tonight, 20:00", location := "Theater Rotterdam", price := "€25.00",
     category := "Theater", source := "uitagenda-rotterdam",
     description := some "Contemporary dance performance exploring urban movement and rhythm." }]

/-- Fixture list returned by `mockIAmsterdam`. -/
def iAmsterdamData : List EventData :=
  [{ id := "ams-1", title := "Rijksmuseum Late Night",
     image := "https://images.unsplash.com/photo-1554907984-15263bfd63bd?q=80&w=1000",
     time := "Tonight, 19:00 - 22:00", location := "Museumplein, Amsterdam", price := "€22.50",
     category := "Culture", source := "mcp-iamsterdam",
     description := some "Extended evening hours at the Rijksmuseum. Special guided tours and live music in the galleries." },
   { id := "ams-2", title := "Canal Light Tour",
     image := "https://images.unsplash.com/photo-1588733103629-b77afeaf847d?q=80&w=1000",
     time := "Starts every 30 mins", location := "Central Station", price := "€18.00",
     category := "Sightseeing", source := "mcp-iamsterdam",
     description := some "Evening canal cruise with illuminated bridges and historic commentary. Romantic atmosphere." },
   { id := "ams-3", title := "Van Gogh Museum: Night Viewing",
     image := "https://images.unsplash.com/photo-1578301978162-7aae4d755744?q=80&w=1000",
     time := "Tonight, 19:00 - 21:00", location := "Museumplein, Amsterdam", price := "€20.00",
     category := "Culture", source := "mcp-iamsterdam",
     description := some "Special evening viewing with fewer crowds. Audio guide included." }]

/-- Fixture list returned by `mockCitySecrets`. -/
def citySecretsData : List CityWalkData :=
  [{ id := "secret-1", title := "Hidden Speakeasy Walk",
     description := "Discover Amsterdam\x27s best-kept secret bars and hidden cocktail lounges in the historic Jordaan district.",
     distance := "2.5 km", duration := "1.5 hours", location := "Jordaan District, Amsterdam",
     route := { name := "Speakeasy Trail",
                waypoints := ["Start: Café de Reiger", "Door 74 (Secret entrance)",
                              "Hiding in Plain Sight", "Tales & Spirits",
                              "End: Proeflokaal A. van Wees"] },
     difficulty := some "Easy", source := "mcp-city-secrets" },
   { id := "secret-2", title := "Rotterdam Street Art Discovery",
     description := "Explore the vibrant street art scene in Rotterdam\x27s Witte de Withstraat and surrounding areas.",
     distance := "3.0 km", duration := "2 hours", location := "Witte de Withstraat, Rotterdam",
     route := { name := "Art Walk",
                waypoints := ["Start: Witte de Withstraat", "Mural at WORM", "Underground Gallery",
                              "Hidden Courtyard Art", "End: TENT Rotterdam"] },
     difficulty := some "Moderate", source := "mcp-city-secrets" },
   { id := "secret-3", title := "Romantic Canal Walk",
     description := "A peaceful evening stroll along Amsterdam\x27s lesser-known canals, away from the crowds.",
     distance := "4.0 km", duration := "1.5 hours", location := "Nine Streets, Amsterdam",
     route := { name := "Romantic Route",
                waypoints := ["Start: Prinsengracht", "Herengracht", "Keizersgracht",
                              "Bloemgracht", "End: Jordaan"] },
     difficulty := some "Easy", source := "mcp-city-secrets" }]

/-- Fixture list returned by `mockTicketmaster`; the TypeScript function takes
the requested location as an argument and returns this list unconditionally. -/
def mockTicketmaster (loc : String) : List EventData :=
  [{ id := "tm-1", title := "Indie Rock Night",
     image := "https://images.unsplash.com/photo-1470229722913-7c0e2dbbaf53?q=80&w=1000",
     time := "Tonight, 20:00", location := "Paradiso, Amsterdam", price := "€35.00",
     category := "Concert", source := "mcp-ticketmaster",
     description := some "Live indie rock performance featuring emerging artists. Limited tickets available." },
   { id := "tm-2", title := "Electronic Music Festival",
     image := "https://images.unsplash.com/photo-1470229722913-7c0e2dbbaf53?q=80&w=1000",
     time := "Tonight, 22:00", location := "Maassilo, Rotterdam", price := "€45.00",
     category := "Concert", source := "mcp-ticketmaster",
     description := some "Major electronic music event with international DJs. Warehouse venue." }]

/-- Fixture list returned by `mockWeatherEvents`. -/
def weatherEventsData : List WeatherEventData :=
  [{ id := "weather-1", location := "Rotterdam, Netherlands", weatherType := "sun",
     temperature := "24°C", condition := "Sunny", precipitation := some "10%",
     humidity := some "65%", windSpeed := some "12 km/h" },
   { id := "weather-2", location := "Amsterdam, Netherlands", weatherType := "rain",
     temperature := "15°C", condition := "Light Rain", precipitation := some "75%",
     humidity := some "85%", windSpeed := some "18 km/h" },
   { id := "weather-3", location := "The Hague, Netherlands", weatherType := "wind",
     temperature := "18°C", condition := "Windy", precipitation := some "20%",
     humidity := some "70%", windSpeed := some "26 km/h" },
   { id := "weather-4", location := "Utrecht, Netherlands", weatherType := "snow",
     temperature := "-2°C", condition := "Snow", precipitation := some "90%",
     humidity := some "95%", windSpeed := some "15 km/h" },
   { id := "weather-5", location := "Eindhoven, Netherlands", weatherType := "clouds",
     temperature := "19°C", condition := "Cloudy", precipitation := some "40%",
     humidity := some "75%", windSpeed := some "14 km/h" },
   { id := "weather-6", location := "Groningen, Netherlands", weatherType := "fog",
     temperature := "12°C", condition := "Foggy", precipitation := some "30%",
     humidity := some "90%", windSpeed := some "8 km/h" },
   { id := "weather-7", location := "Maastricht, Netherlands", weatherType := "storm",
     temperature := "16°C", condition := "Thunderstorm", precipitation := some "95%",
     humidity := some "88%", windSpeed := some "32 km/h" },
   { id := "weather-8", location := "Haarlem, Netherlands", weatherType := "clear",
     temperature := "22°C", condition := "Clear", precipitation := some "5%",
     humidity := some "60%", windSpeed := some "10 km/h" }]

/-! ## Keyword tool dispatch (submitUserMessage, section 5 of the server action file) -/

/-- Tools the mock dispatch logic can select. -/
inductive Tool
  | weather
  | rotterdam
  | amsterdam
  | citySecrets
  | ticketmaster
  | defaultChat
deriving DecidableEq

/-- Parameters accumulated by the dispatch logic (`toolParams`). -/
structure ToolParams where
  city : Option String := none
  location : Option String := none
  typ : Option String := none
deriving DecidableEq

/-- Weather keyword test from the first branch of the dispatch if-chain. -/
def hasWeatherKeyword (lowerInput : String) : Bool :=
  strContains lowerInput "weather" || strContains lowerInput "rain" ||
  strContains lowerInput "sun" || strContains lowerInput "snow" ||
  strContains lowerInput "wind" || strContains lowerInput "storm" ||
  strContains lowerInput "cloud" || strContains lowerInput "fog" ||
  strContains lowerInput "clear"

/-- Walk keyword test from the city-secrets branch of the dispatch if-chain. -/
def hasWalkKeyword (lowerInput : String) : Bool :=
  strContains lowerInput "walk" || strContains lowerInput "secret" ||
  strContains lowerInput "hidden"

/-- Concert keyword test from the ticketmaster branch of the dispatch if-chain. -/
def hasTicketKeyword (lowerInput : String) : Bool :=
  strContains lowerInput "concert" || strContains lowerInput "ticketmaster" ||
  strContains lowerInput "tickets"

/-- Tool selection and parameter extraction of `submitUserMessage`: the input
is lowercased, then an if-chain picks the first matching keyword group. -/
def decideTool (input : String) : Tool × ToolParams :=
  let lowerInput := lowerStr input
  if hasWeatherKeyword lowerInput then (.weather, {})
  else if strContains lowerInput "rotterdam" then
    (.rotterdam,
     { typ := if strContains lowerInput "concert" || strContains lowerInput "music" then
                some "music" else none })
  else if strContains lowerInput "amsterdam" then
    (.amsterdam,
     { typ := if strContains lowerInput "museum" || strContains lowerInput "culture" then
                some "culture" else none })
  else if hasWalkKeyword lowerInput then
    (.citySecrets,
     { city := if strContains lowerInput "rotterdam" then some "rotterdam"
               else if strContains lowerInput "amsterdam" then some "amsterdam"
               else none })
  else if hasTicketKeyword lowerInput then
    (.ticketmaster,
     { location := if strContains lowerInput "amsterdam" then some "Amsterdam"
                   else if strContains lowerInput "rotterdam" then some "Rotterdam"
                   else some "Amsterdam" })
  else (.defaultChat, {})

/-- City filter applied in the `get_city_secrets` case: when a city parameter
is present, keep the walks whose lowercased location contains it. -/
def filterWalksByCity (city : Option String) (walks : List CityWalkData) : List CityWalkData :=
  match city with
  | some c => walks.filter (fun w => strContains (lowerStr w.location) c)
  | none => walks

/-- Rendered response of the server action, one constructor per `case` of the
dispatch `switch`, plus the default help text and the catch-all error text. -/
inductive Response
  | weatherUI (events : List WeatherEventData)
  | rotterdamUI (events : List EventData)
  | amsterdamUI (events : List EventData)
  | walksUI (walks : List CityWalkData)
  | ticketUI (loc : String) (events : List EventData)
  | helpUI
  | errorUI
deriving DecidableEq

/-- External data collaborators of the server action; a `.error` value stands
for a call that throws or times out. -/
structure Collaborators where
  weather : Except Unit (List WeatherEventData)
  rotterdam : Except Unit (List EventData)
  amsterdam : Except Unit (List EventData)
  citySecrets : Except Unit (List CityWalkData)
  ticketmaster : String → Except Unit (List EventData)

/-- Collaborators as wired in the source file: every mock resolves with its
fixture list. -/
def realCollaborators : Collaborators :=
  { weather := .ok weatherEventsData
    rotterdam := .ok uitAgendaRotterdamData
    amsterdam := .ok iAmsterdamData
    citySecrets := .ok citySecretsData
    ticketmaster := fun loc => .ok (mockTicketmaster loc) }

/-- Dispatch half of `submitUserMessage`: the try/catch around the `switch`
turns any failure of the called collaborator into the error response. -/
def submitUserMessage (co : Collaborators) (input : String) : Response :=
  match decideTool input with
  | (.weather, _) =>
    match co.weather with
    | .ok d => .weatherUI d
    | .error _ => .errorUI
  | (.rotterdam, _) =>
    match co.rotterdam with
    | .ok d => .rotterdamUI d
    | .error _ => .errorUI
  | (.amsterdam, _) =>
    match co.amsterdam with
    | .ok d => .amsterdamUI d
    | .error _ => .errorUI
  | (.citySecrets, p) =>
    match co.citySecrets with
    | .ok walks => .walksUI (filterWalksByCity p.city walks)
    | .error _ => .errorUI
  | (.ticketmaster, p) =>
    match co.ticketmaster (p.location.getD "Amsterdam") with
    | .ok d => .ticketUI (p.location.getD "Amsterdam") d
    | .error _ => .errorUI
  | (.defaultChat, _) => .helpUI

/-! ## WalkList and WeatherEventCarousel components -/

/-- Rendering outcome of the `WalkList` component: either the zero-result
message or one card per walk; the component has no error branch. -/
inductive WalkRender
  | noWalksMessage
  | walkCards (walks : List CityWalkData)
deriving DecidableEq

/-- The `WalkList` component: an empty list renders the normal
"No walks found" message, a nonempty list renders its cards. -/
def walkList (walks : List CityWalkData) : WalkRender :=
  if walks.length = 0 then .noWalksMessage else .walkCards walks

/-- Demo fixture declared inside `WeatherEventCarousel`. -/
def demoEvents : List WeatherEventData :=
  [{ id := "1", location := "Groningen, Netherlands", weatherType := "fog",
     temperature := "12°", condition := "Foggy", humidity := some "90%",
     windSpeed := some "8 km/h", precipitation := some "30%" },
   { id := "2", location := "Rotterdam", weatherType := "wind",
     temperature := "14°", condition := "Windy", windSpeed := some "32 km/h",
     humidity := some "65%", precipitation := none },
   { id := "3", location := "Amsterdam", weatherType := "rain",
     temperature := "11°", condition := "Heavy Rain", precipitation := some "100%",
     windSpeed := some "12 km/h", humidity := none }]

/-- The `WeatherEventCarousel` component: `none` models the early `return null`
on an empty events array; otherwise it maps over `displayEvents`, which falls
back to `demoEvents` only when the events array is empty. -/
def weatherEventCarousel (events : List WeatherEventData) : Option (List WeatherEventData) :=
  if events.length = 0 then none
  else some (if events.length > 0 then events else demoEvents)

/-! ## EventCard favorite toggle (event-card.tsx) -/

/-- One click of the favorite button (`handleFavorite`): the first component is
the "cityvibe-favorites" list read from and written back to localStorage, the
second is the `isFavorite` React state consulted by the handler. -/
def toggleFavorite (eventId : String) : List String × Bool → List String × Bool
  | (favorites, isFavorite) =>
    if isFavorite then (favorites.filter (fun i => i ≠ eventId), false)
    else (favorites ++ [eventId], true)

/-! ## Theorems about the front-end code -/

/-- C1 is false as stated: for the requested location "Amsterdam" the
Ticketmaster path returns an event (Electronic Music Festival at
Maassilo, Rotterdam) whose stored location does not satisfy the filter. -/
theorem c1_city_filter_counterexample :
    (mockTicketmaster "Amsterdam").any
      (fun e => !(strContains (lowerStr e.location) (lowerStr "Amsterdam"))) = true := by decide

/-- C1 (amended): the walks returned by the city-secrets path all have the
requested city in their lowercased location, but the Ticketmaster path ignores
the requested location and returns the same fixed event list for every
location. -/
theorem c1_city_filter_amended :
    (∀ (c : String) (walks : List CityWalkData) (w : CityWalkData),
        w ∈ filterWalksByCity (some c) walks → strContains (lowerStr w.location) c = true) ∧
    (∀ loc : String, mockTicketmaster loc = mockTicketmaster "Amsterdam") := by
  constructor
  · intro c walks w hw
    simp only [filterWalksByCity] at hw
    exact (List.mem_filter.mp hw).2
  · intro loc; rfl

/-- Witness for C1 (amended): the Rotterdam street-art walk survives the
"rotterdam" city filter and indeed carries that city in its location. -/
theorem c1_city_filter_amended_witness :
    strContains (lowerStr ((citySecretsData.get ⟨1, by decide⟩).location)) "rotterdam" = true :=
  c1_city_filter_amended.1 "rotterdam" citySecretsData
    (citySecretsData.get ⟨1, by decide⟩) (by decide)

/-- C2 is false as stated: when the city-secrets collaborator is unavailable,
the query "show me a walk" produces the whole-query error response, not a
result list with a degraded-mode flag (no such flag exists in the code). -/
theorem c2_degraded_fallback_counterexample :
    submitUserMessage { realCollaborators with citySecrets := .error () } "show me a walk"
      = Response.errorUI := by decide

/-- C2 (amended): when the dispatched collaborator fails, `submitUserMessage`
catches the failure and returns the catch-all error response; the action never
propagates the exception, but it returns no results and sets no degraded
flag. -/
theorem c2_degraded_fallback_amended (co : Collaborators) (input : String) :
    ((decideTool input).1 = Tool.weather → co.weather = .error () →
      submitUserMessage co input = Response.errorUI) ∧
    ((decideTool input).1 = Tool.rotterdam → co.rotterdam = .error () →
      submitUserMessage co input = Response.errorUI) ∧
    ((decideTool input).1 = Tool.amsterdam → co.amsterdam = .error () →
      submitUserMessage co input = Response.errorUI) ∧
    ((decideTool input).1 = Tool.citySecrets → co.citySecrets = .error () →
      submitUserMessage co input = Response.errorUI) ∧
    ((decideTool input).1 = Tool.ticketmaster →
      co.ticketmaster ((decideTool input).2.location.getD "Amsterdam") = .error () →
      submitUserMessage co input = Response.errorUI) := by
  refine ⟨?_, ?_, ?_, ?_, ?_⟩ <;> intro h1 h2 <;>
    rcases hd : decideTool input with ⟨t, p⟩ <;> rw [hd] at h1 <;> subst h1 <;>
    simp_all [submitUserMessage, hd]

/-- Witness for C2 (amended): a failing weather collaborator on the query
"weather" yields the error response. -/
theorem c2_degraded_fallback_amended_witness :
    submitUserMessage { realCollaborators with weather := .error () } "weather"
      = Response.errorUI :=
  (c2_degraded_fallback_amended { realCollaborators with weather := .error () } "weather").1
    (by decide) rfl

/-- C7: a city filter matching no stored walk yields the empty walk list, and
the `WalkList` component renders the normal zero-result message for it; the
response constructor is not the error response. -/
theorem c7_empty_city_filter (c : String)
    (h : ∀ w ∈ citySecretsData, strContains (lowerStr w.location) c = false) :
    filterWalksByCity (some c) citySecretsData = [] ∧
    walkList (filterWalksByCity (some c) citySecretsData) = WalkRender.noWalksMessage ∧
    Response.walksUI (filterWalksByCity (some c) citySecretsData) ≠ Response.errorUI := by
  have hf : filterWalksByCity (some c) citySecretsData = [] := by
    simp only [filterWalksByCity]
    rw [List.filter_eq_nil_iff]
    intro w hw
    simp [h w hw]
  refine ⟨hf, by rw [hf]; rfl, by simp⟩

/-- Witness for C7: the city filter "utrecht" matches no stored walk. -/
theorem c7_empty_city_filter_witness :
    filterWalksByCity (some "utrecht") citySecretsData = [] ∧
    walkList (filterWalksByCity (some "utrecht") citySecretsData) = WalkRender.noWalksMessage ∧
    Response.walksUI (filterWalksByCity (some "utrecht") citySecretsData) ≠ Response.errorUI :=
  c7_empty_city_filter "utrecht" (by decide)

/-- C8: the keyword dispatch follows the fixed priority order of the if-chain
(weather keywords, then "rotterdam", then "amsterdam", then the walk group,
then the ticket group), and an input that matches no keyword group yields the
default help response for every collaborator assignment, so no mock data
source is consulted. -/
theorem c8_dispatch_priority (input : String) :
    (hasWeatherKeyword (lowerStr input) = true → (decideTool input).1 = Tool.weather) ∧
    (hasWeatherKeyword (lowerStr input) = false →
      strContains (lowerStr input) "rotterdam" = true → (decideTool input).1 = Tool.rotterdam) ∧
    (hasWeatherKeyword (lowerStr input) = false →
      strContains (lowerStr input) "rotterdam" = false →
      strContains (lowerStr input) "amsterdam" = true → (decideTool input).1 = Tool.amsterdam) ∧
    (hasWeatherKeyword (lowerStr input) = false →
      strContains (lowerStr input) "rotterdam" = false →
      strContains (lowerStr input) "amsterdam" = false →
      hasWalkKeyword (lowerStr input) = true → (decideTool input).1 = Tool.citySecrets) ∧
    (hasWeatherKeyword (lowerStr input) = false →
      strContains (lowerStr input) "rotterdam" = false →
      strContains (lowerStr input) "amsterdam" = false →
      hasWalkKeyword (lowerStr input) = false →
      hasTicketKeyword (lowerStr input) = true → (decideTool input).1 = Tool.ticketmaster) ∧
    (hasWeatherKeyword (lowerStr input) = false →
      strContains (lowerStr input) "rotterdam" = false →
      strContains (lowerStr input) "amsterdam" = false →
      hasWalkKeyword (lowerStr input) = false →
      hasTicketKeyword (lowerStr input) = false →
      (decideTool input).1 = Tool.defaultChat ∧
      ∀ co : Collaborators, submitUserMessage co input = Response.helpUI) := by
  refine ⟨?_, ?_, ?_, ?_, ?_, ?_⟩ <;> intros <;> simp_all [decideTool, submitUserMessage]

/-- Witness for C8: one concrete input per keyword group, including an input
with both a weather keyword and a city name, an input with both "rotterdam"
and "walk", and an input matching no group that yields the help response even
when every collaborator fails. -/
theorem c8_dispatch_priority_witness :
    (decideTool "weather in rotterdam").1 = Tool.weather ∧
    (decideTool "walk in rotterdam").1 = Tool.rotterdam ∧
    (decideTool "museums in amsterdam").1 = Tool.amsterdam ∧
    (decideTool "show me hidden gems").1 = Tool.citySecrets ∧
    (decideTool "buy me some tickets").1 = Tool.ticketmaster ∧
    (decideTool "hello there").1 = Tool.defaultChat ∧
    submitUserMessage
      { weather := .error (), rotterdam := .error (), amsterdam := .error (),
        citySecrets := .error (), ticketmaster := fun _ => .error () } "hello there"
      = Response.helpUI :=
  ⟨(c8_dispatch_priority "weather in rotterdam").1 (by decide),
   (c8_dispatch_priority "walk in rotterdam").2.1 (by decide) (by decide),
   (c8_dispatch_priority "museums in amsterdam").2.2.1 (by decide) (by decide) (by decide),
   (c8_dispatch_priority "show me hidden gems").2.2.2.1 (by decide) (by decide) (by decide)
     (by decide),
   (c8_dispatch_priority "buy me some tickets").2.2.2.2.1 (by decide) (by decide) (by decide)
     (by decide) (by decide),
   ((c8_dispatch_priority "hello there").2.2.2.2.2 (by decide) (by decide) (by decide)
     (by decide) (by decide)).1,
   ((c8_dispatch_priority "hello there").2.2.2.2.2 (by decide) (by decide) (by decide)
     (by decide) (by decide)).2 _⟩

/-- C9: starting from a stored favorites list in which the event id occurs at
most once and a favorite state in sync with storage, two clicks of the
favorite toggle leave the membership of every id in storage unchanged. -/
theorem c9_favorite_toggle_involution (eventId : String) (favorites : List String) (isFav : Bool)
    (hsync : isFav = favorites.contains eventId)
    (hcount : favorites.count eventId ≤ 1) :
    ∀ x : String,
      x ∈ (toggleFavorite eventId (toggleFavorite eventId (favorites, isFav))).1 ↔
        x ∈ favorites := by
  intro x
  subst hsync
  by_cases hmem : eventId ∈ favorites
  · have hc : favorites.contains eventId = true := List.elem_iff.mpr hmem
    rw [hc]
    simp only [toggleFavorite, if_pos, Bool.false_eq_true, if_neg, not_false_iff]
    simp only [List.mem_append, List.mem_filter, List.mem_singleton, decide_eq_true_eq]
    by_cases hx : x = eventId
    · subst hx
      simp [hmem]
    · simp [hx]
  · have hc : favorites.contains eventId = false := by
      rw [Bool.eq_false_iff]
      intro hcon
      exact hmem (List.elem_iff.mp hcon)
    rw [hc]
    simp only [toggleFavorite, Bool.false_eq_true, if_neg, not_false_iff, if_pos]
    have hfil : (favorites ++ [eventId]).filter (fun i => decide (i ≠ eventId)) = favorites := by
      rw [List.filter_append, List.filter_eq_self.mpr, List.filter_cons]
      · simp
      · intro a ha
        simp only [decide_eq_true_eq]
        intro hae
        exact hmem (hae ▸ ha)
    rw [hfil]

/-- Witness for C9: toggling "rot-2" twice on the stored list
["rot-1", "rot-2"] with the favorite state set keeps "rot-2" a member. -/
theorem c9_favorite_toggle_involution_witness :
    ("rot-2" ∈ (toggleFavorite "rot-2" (toggleFavorite "rot-2" (["rot-1", "rot-2"], true))).1 ↔
      "rot-2" ∈ ["rot-1", "rot-2"]) :=
  c9_favorite_toggle_involution "rot-2" ["rot-1", "rot-2"] true (by decide) (by decide) "rot-2"

/-- C10: the carousel returns `none` on an empty events array and renders
exactly the passed events otherwise, so the `demoEvents` fallback branch is
unreachable: no input other than `demoEvents` itself can make it render the
demo list. -/
theorem c10_weather_carousel_no_fallback (events : List WeatherEventData) :
    weatherEventCarousel events = (if events.isEmpty then none else some events) ∧
    (events ≠ demoEvents → weatherEventCarousel events ≠ some demoEvents) := by
  constructor
  · cases events <;> simp [weatherEventCarousel]
  · intro hne
    cases events with
    | nil => simp [weatherEventCarousel]
    | cons a t =>
      have hs : weatherEventCarousel (a :: t) = some (a :: t) := by
        simp [weatherEventCarousel]
      rw [hs]
      intro hcontra
      exact hne (Option.some.inj hcontra)

/-- Witness for C10: the full weather fixture list is rendered as itself, not
as the demo fallback. -/
theorem c10_weather_carousel_no_fallback_witness :
    weatherEventCarousel weatherEventsData ≠ some demoEvents :=
  (c10_weather_carousel_no_fallback weatherEventsData).2 (by decide)

/-! ## Ingestion core

The Python ETL implementation (packages/cityvibe-etl: event_processor.py,
validator.py, deduplicator.py, enricher.py) is described by the repository
README files but its source is not present under src/, so the following
definitions are modelled from the specification (sections 4.1 to 4.4).
Timezone-aware instants are modelled as integer epoch seconds, confidence
scores as rationals in [0,1], and tag sets as finite string sets; lifecycle
timestamps and provenance snapshots, which no claim measures, are omitted. -/

/-- Modelled from the spec: the named tunables of the ingestion pipeline
(validation horizons relative to a reference instant, title length bound,
fuzzy time window, fuzzy similarity threshold in percent, squared location
radius, default confidence of a scrape). -/
structure EtlConfig where
  now : Int
  pastHorizon : Int
  futureHorizon : Int
  maxTitleLen : Nat
  fuzzyWindow : Int
  fuzzyThresholdPct : Nat
  geoRadiusSq : Int
  defaultConf : ℚ

/-- Modelled from the spec: a raw scraped record, an untyped field map that
may be missing any field; date parsing is abstracted by letting an unparsable
start time arrive as `none`. -/
structure RawRecord where
  title : Option String
  start : Option Int
  endTime : Option Int
  venue : Option String
  coords : Option (Int × Int)
  desc : Option String
  conf : Option ℚ
  tags : List String
deriving DecidableEq

/-- Modelled from the spec: a normalized candidate canonical event draft. -/
structure Draft where
  title : String
  start : Int
  endTime : Option Int
  venue : Option String
  coords : Option (Int × Int)
  desc : String
  conf : ℚ
  tags : Finset String
deriving DecidableEq

/-- Split a character list into space-separated chunks, keeping empty chunks,
structurally (so that the kernel can evaluate it). -/
def splitWordsAux : List Char → List Char → List String
  | [], acc => [⟨acc.reverse⟩]
  | c :: cs, acc =>
    if c == ' ' then ⟨acc.reverse⟩ :: splitWordsAux cs []
    else splitWordsAux cs (c :: acc)

/-- Split a string into space-separated chunks. -/
def splitWords (s : String) : List String := splitWordsAux s.data []

/-- Join words with single spaces. -/
def joinSpace : List String → String
  | [] => ""
  | [w] => w
  | w :: ws => w ++ " " ++ joinSpace ws

/-- Trim and collapse whitespace by splitting into words and rejoining. -/
def squeeze (s : String) : String :=
  joinSpace ((splitWords s).filter (fun t => t != ""))

/-- Modelled from the spec: the Normalizer converts a raw record into a draft,
trimming and collapsing whitespace and defaulting the confidence score; it
fails (returns `none`, the normalization error) exactly when the title is
empty after trimming or the start time is unparsable. -/
def normalize (cfg : EtlConfig) (r : RawRecord) : Option Draft :=
  match r.title, r.start with
  | some t, some st =>
    let tt := squeeze t
    if tt = "" then none
    else some { title := tt, start := st, endTime := r.endTime, venue := r.venue,
                coords := r.coords, desc := squeeze (r.desc.getD ""),
                conf := r.conf.getD cfg.defaultConf, tags := r.tags.toFinset }
  | _, _ => none

/-- Modelled from the spec: the Validator accepts a draft whose start time
lies within the configured horizons, whose end time (when present) is not
before the start time, and whose title length is within bounds; a rejected
draft is dropped and the batch continues. -/
def validate (cfg : EtlConfig) (d : Draft) : Bool :=
  decide (cfg.now - cfg.pastHorizon ≤ d.start) &&
  decide (d.start ≤ cfg.now + cfg.futureHorizon) &&
  (match d.endTime with | some e => decide (d.start ≤ e) | none => true) &&
  decide (1 ≤ d.title.length) && decide (d.title.length ≤ cfg.maxTitleLen)

/-- Exact dedupe key material: normalized lowercase title, start time
truncated to the minute, venue identifier. -/
abbrev SigKey := String × Int × String

/-- Modelled from the spec: the exact key of the Signature Hasher, a
deterministic fingerprint over (normalized lowercase title, start truncated
to the minute, venue id or normalized location name). -/
def exactKey (d : Draft) : SigKey :=
  (lowerStr d.title, d.start / 60, lowerStr (d.venue.getD ""))

/-- Stopword list used by the fuzzy key material. -/
def stopwords : List String :=
  ["the", "a", "an", "at", "in", "on", "of", "and", "de", "het", "een"]

/-- Drop every character that is not a letter, a digit or a space. -/
def stripPunct (s : String) : String :=
  ⟨s.data.filter (fun c => c.isAlpha || c.isDigit || c == ' ')⟩

/-- Modelled from the spec: the fuzzy key material of the Signature Hasher, a
lowercased title with punctuation stripped and stopwords removed. -/
def fuzzyTitle (s : String) : String :=
  joinSpace
    ((splitWords (stripPunct (lowerStr s))).filter
      (fun t => t != "" && !(stopwords.contains t)))

/-- One inner cell step of the Levenshtein dynamic program: walk the rest of
the previous row and emit the next row, carrying the cell to the left. -/
def levRowStep (a : Char) : List Char → List Nat → Nat → List Nat
  | [], _, _ => []
  | _ :: _, [], _ => []
  | _ :: _, [_], _ => []
  | b :: bs, p0 :: p1 :: ps, w =>
    let v := min (w + 1) (min (p1 + 1) (p0 + (if a = b then 0 else 1)))
    v :: levRowStep a bs (p1 :: ps) v

/-- One full row of the Levenshtein dynamic program. -/
def levRow (bs : List Char) (row : List Nat) (a : Char) : List Nat :=
  match row with
  | [] => []
  | p0 :: _ => (p0 + 1) :: levRowStep a bs row (p0 + 1)

/-- Levenshtein edit distance by the row dynamic program (structural
recursion, so that concrete runs reduce in the kernel). -/
def levDist (as bs : List Char) : Nat :=
  ((as.foldl (levRow bs) (List.range (bs.length + 1))).getLast?).getD 0

/-- Modelled from the spec: normalized string-edit-distance similarity between
two titles, as a percentage of the longer fuzzy-normalized title. -/
def simPct (s t : String) : Nat :=
  let a := (fuzzyTitle s).data
  let b := (fuzzyTitle t).data
  let m := max a.length b.length
  if m = 0 then 100 else ((m - levDist a b) * 100) / m

/-- Modelled from the spec: a canonical event record with the fields the
claims measure; the opaque identity is a natural number assigned at
creation. -/
@[ext]
structure EventRec where
  id : Nat
  title : String
  start : Int
  endTime : Option Int
  venue : Option String
  coords : Option (Int × Int)
  desc : String
  conf : ℚ
  tags : Finset String
deriving DecidableEq

/-- A draft or event carries a location when it has a venue or coordinates. -/
def hasLoc (venue : Option String) (coords : Option (Int × Int)) : Bool :=
  venue.isSome || coords.isSome

/-- Modelled from the spec: location overlap for the fuzzy match, true on the
same venue id, on squared coordinate distance within the configured radius,
or when neither side carries a location. -/
def locOverlap (cfg : EtlConfig) (e : EventRec) (d : Draft) : Bool :=
  (match e.venue, d.venue with
   | some v, some w => lowerStr v == lowerStr w
   | _, _ => false) ||
  (match e.coords, d.coords with
   | some p, some q => decide ((p.1 - q.1) ^ 2 + (p.2 - q.2) ^ 2 ≤ cfg.geoRadiusSq)
   | _, _ => false) ||
  (!(hasLoc e.venue e.coords) && !(hasLoc d.venue d.coords))

/-- Modelled from the spec: an event is a fuzzy-match candidate for a draft
when its start time lies within the tolerance window, the title similarity
reaches the threshold, and the locations overlap. -/
def fuzzyMatches (cfg : EtlConfig) (e : EventRec) (d : Draft) : Bool :=
  decide (d.start - cfg.fuzzyWindow ≤ e.start) &&
  decide (e.start ≤ d.start + cfg.fuzzyWindow) &&
  decide (cfg.fuzzyThresholdPct ≤ simPct e.title d.title) &&
  locOverlap cfg e d

/-- Modelled from the spec: the best-scoring fuzzy candidate, highest
similarity first, earlier stored events winning ties. -/
def bestFuzzy (cfg : EtlConfig) (events : List EventRec) (d : Draft) : Option EventRec :=
  (events.filter (fun e => fuzzyMatches cfg e d)).foldl
    (fun best e =>
      match best with
      | none => some e
      | some b => if simPct b.title d.title < simPct e.title d.title then some e else some b)
    none

/-- Overwrite every scalar field of a stored event with the values of a
draft, keeping identity and tags. -/
def overwriteScalars (e : EventRec) (d : Draft) : EventRec :=
  { e with title := d.title, start := d.start, endTime := d.endTime, venue := d.venue,
           coords := d.coords, desc := d.desc, conf := d.conf }

/-- Modelled from the spec: field-by-field merge of a draft into a stored
event; scalar fields are overwritten only when the incoming confidence is at
least the stored confidence, tags are always unioned, the identity is kept. -/
def mergeE (e : EventRec) (d : Draft) : EventRec :=
  if e.conf ≤ d.conf then { overwriteScalars e d with tags := e.tags ∪ d.tags }
  else { e with tags := e.tags ∪ d.tags }

/-- Modelled from the spec: the canonical event created from the first draft
of a new real-world event. -/
def newEvent (i : Nat) (d : Draft) : EventRec :=
  { id := i, title := d.title, start := d.start, endTime := d.endTime, venue := d.venue,
    coords := d.coords, desc := d.desc, conf := d.conf, tags := d.tags }

/-- Modelled from the spec: the canonical record set, the append-only
signature table, and the next fresh identity. -/
@[ext]
structure IngestState where
  events : List EventRec
  sigs : List (Nat × SigKey)
  nextId : Nat
deriving DecidableEq

/-- The store before any batch has been processed. -/
def emptyState : IngestState := { events := [], sigs := [], nextId := 0 }

/-- First signature row carrying the requested exact key, if any. -/
def lookupSig (sigs : List (Nat × SigKey)) (k : SigKey) : Option Nat :=
  (sigs.find? (fun p => p.2 == k)).map (fun p => p.1)

/-- Signature insertion with unique-constraint semantics: a row that is
already present is not duplicated. -/
def insertSig (sigs : List (Nat × SigKey)) (p : Nat × SigKey) : List (Nat × SigKey) :=
  if p ∈ sigs then sigs else sigs ++ [p]

/-- Merge a draft into the stored event with the given identity. -/
def updateEvent (events : List EventRec) (i : Nat) (d : Draft) : List EventRec :=
  events.map (fun e => if e.id = i then mergeE e d else e)

/-- Modelled from the spec: the Deduplicator decision for one validated
draft, in order: exact-key lookup (update on hit), fuzzy match (update the
best candidate), otherwise a new event; a signature row for the exact key of
the draft is always recorded. -/
def processDraft (cfg : EtlConfig) (S : IngestState) (d : Draft) : IngestState :=
  match lookupSig S.sigs (exactKey d) with
  | some eid =>
    { S with events := updateEvent S.events eid d,
             sigs := insertSig S.sigs (eid, exactKey d) }
  | none =>
    match bestFuzzy cfg S.events d with
    | some e =>
      { S with events := updateEvent S.events e.id d,
               sigs := insertSig S.sigs (e.id, exactKey d) }
    | none =>
      { events := S.events ++ [newEvent S.nextId d],
        sigs := insertSig S.sigs (S.nextId, exactKey d),
        nextId := S.nextId + 1 }

/-- Normalization and validation stage of a raw batch: failing records are
dropped, the batch continues. -/
def prepareBatch (cfg : EtlConfig) (raws : List RawRecord) : List Draft :=
  (raws.filterMap (normalize cfg)).filter (validate cfg)

/-- Fold the deduplicator over a batch of validated drafts. -/
def processBatch (cfg : EtlConfig) (S : IngestState) (drafts : List Draft) : IngestState :=
  drafts.foldl (processDraft cfg) S

/-- Modelled from the spec: `processBatch` over a raw batch, the interface
the idempotence property quantifies over. -/
def ingestRaw (cfg : EtlConfig) (S : IngestState) (raws : List RawRecord) : IngestState :=
  processBatch cfg S (prepareBatch cfg raws)

/-- Default tunables: one-day past horizon, one-year future horizon, 500
character titles, three-hour fuzzy window, 85 percent similarity threshold. -/
def defaultEtlConfig : EtlConfig :=
  { now := 1717200000, pastHorizon := 86400, futureHorizon := 31536000, maxTitleLen := 500,
    fuzzyWindow := 10800, fuzzyThresholdPct := 85, geoRadiusSq := 40000, defaultConf := 1/2 }

/-- Raw record of the example scenario: title "Jazz at Bird", start
2024-06-01T20:30Z (epoch second 1717273800), venue "Bird". -/
def jazzAtBirdRaw : RawRecord :=
  { title := some "Jazz at Bird", start := some 1717273800, endTime := none,
    venue := some "Bird", coords := none, desc := none, conf := none, tags := [] }

/-- Raw record of the example scenario: title "Jazz @ Bird", start
2024-06-01T20:32Z (epoch second 1717273920), venue "Bird". -/
def jazzAtBirdVariantRaw : RawRecord :=
  { title := some "Jazz @ Bird", start := some 1717273920, endTime := none,
    venue := some "Bird", coords := none, desc := none, conf := none, tags := [] }

/-- C4: ingesting the two Jazz at Bird raw records in one batch creates
exactly one canonical event (the second record fuzzy-matches the first, with
title similarity 100 percent after fuzzy normalization) and exactly two
signature rows (the two exact keys differ in title and minute). -/
theorem c4_jazz_at_bird_scenario :
    (ingestRaw defaultEtlConfig emptyState [jazzAtBirdRaw, jazzAtBirdVariantRaw]).events.length
      = 1 ∧
    (ingestRaw defaultEtlConfig emptyState [jazzAtBirdRaw, jazzAtBirdVariantRaw]).sigs.length
      = 2 := by
  constructor <;> decide



def mergeAll (e : EventRec) (L : List Draft) : EventRec := L.foldl mergeE e

def tagsOf (L : List Draft) : Finset String := L.foldr (fun d acc => d.tags ∪ acc) ∅

theorem mergeE_pos {e : EventRec} {d : Draft} (h : e.conf ≤ d.conf) :
    mergeE e d = { overwriteScalars e d with tags := e.tags ∪ d.tags } := by
  unfold mergeE; rw [if_pos h]

theorem mergeE_neg {e : EventRec} {d : Draft} (h : ¬e.conf ≤ d.conf) :
    mergeE e d = { e with tags := e.tags ∪ d.tags } := by
  unfold mergeE; rw [if_neg h]

theorem mergeE_id (e : EventRec) (d : Draft) : (mergeE e d).id = e.id := by
  unfold mergeE; split <;> rfl

theorem mergeE_conf (e : EventRec) (d : Draft) : (mergeE e d).conf = max e.conf d.conf := by
  unfold mergeE; split
  · exact (max_eq_right (by assumption)).symm
  · exact (max_eq_left (le_of_not_le (by assumption))).symm

theorem mergeE_tags (e : EventRec) (d : Draft) : (mergeE e d).tags = e.tags ∪ d.tags := by
  unfold mergeE; split <;> rfl

theorem mergeE_tags_congr (e : EventRec) (t : Finset String) (d : Draft) :
    mergeE { e with tags := t } d = { mergeE e d with tags := t ∪ d.tags } := by
  unfold mergeE
  split <;> rfl

theorem mergeAll_nil (e : EventRec) : mergeAll e [] = e := rfl

theorem mergeAll_cons (e : EventRec) (d : Draft) (L : List Draft) :
    mergeAll e (d :: L) = mergeAll (mergeE e d) L := rfl

theorem mergeAll_append (e : EventRec) (L : List Draft) (d : Draft) :
    mergeAll e (L ++ [d]) = mergeE (mergeAll e L) d := by
  unfold mergeAll; rw [List.foldl_append]; rfl

theorem mergeAll_id (e : EventRec) (L : List Draft) : (mergeAll e L).id = e.id := by
  induction L generalizing e with
  | nil => rfl
  | cons d L ih => rw [mergeAll_cons, ih, mergeE_id]

theorem mergeAll_conf_ge (e : EventRec) (L : List Draft) : e.conf ≤ (mergeAll e L).conf := by
  induction L generalizing e with
  | nil => exact le_refl _
  | cons d L ih =>
    rw [mergeAll_cons]
    exact le_trans (by rw [mergeE_conf]; exact le_max_left _ _) (ih _)

theorem mergeAll_conf_elem (e : EventRec) (L : List Draft) (d : Draft) (hd : d ∈ L) :
    d.conf ≤ (mergeAll e L).conf := by
  induction L generalizing e with
  | nil => cases hd
  | cons a L ih =>
    rw [mergeAll_cons]
    rcases List.mem_cons.mp hd with h | h
    · subst h
      exact le_trans (by rw [mergeE_conf]; exact le_max_right _ _) (mergeAll_conf_ge _ _)
    · exact ih _ h

theorem mergeAll_conf_le (e : EventRec) (L : List Draft) (c : ℚ) (he : e.conf ≤ c)
    (hL : ∀ d ∈ L, d.conf ≤ c) : (mergeAll e L).conf ≤ c := by
  induction L generalizing e with
  | nil => exact he
  | cons d L ih =>
    rw [mergeAll_cons]
    refine ih _ ?_ (fun d' hd' => hL d' (List.mem_cons_of_mem _ hd'))
    rw [mergeE_conf]
    exact max_le he (hL d (List.mem_cons_self _ _))

theorem mergeAll_tags (e : EventRec) (L : List Draft) :
    (mergeAll e L).tags = e.tags ∪ tagsOf L := by
  induction L generalizing e with
  | nil => simp [mergeAll_nil, tagsOf]
  | cons d L ih =>
    rw [mergeAll_cons, ih, mergeE_tags]
    show e.tags ∪ d.tags ∪ tagsOf L = e.tags ∪ tagsOf (d :: L)
    rw [Finset.union_assoc]
    rfl

theorem mergeAll_tags_congr (e : EventRec) (t : Finset String) (L : List Draft) :
    mergeAll { e with tags := t } L = { mergeAll e L with tags := t ∪ tagsOf L } := by
  induction L generalizing e t with
  | nil =>
    simp only [mergeAll_nil, tagsOf, List.foldr_nil, Finset.union_empty]
  | cons d L ih =>
    rw [mergeAll_cons, mergeE_tags_congr, ih, mergeAll_cons]
    have h : (t ∪ d.tags) ∪ tagsOf L = t ∪ tagsOf (d :: L) := by
      rw [Finset.union_assoc]; rfl
    rw [h]

theorem merge_absorb (e : EventRec) (L : List Draft) (d : Draft)
    (hfix : mergeAll e L = e) : mergeE (mergeAll (mergeE e d) L) d = mergeE e d := by
  set y := mergeE e d with hy
  set z := mergeAll y L with hz
  have hLconf : ∀ d' ∈ L, d'.conf ≤ e.conf := by
    intro d' hd'
    have h := mergeAll_conf_elem e L d' hd'
    rwa [hfix] at h
  have hLtags : tagsOf L ⊆ e.tags := by
    have h := mergeAll_tags e L
    rw [hfix] at h
    exact Finset.union_eq_left.mp h.symm
  have hyconf : e.conf ≤ y.conf := by rw [hy, mergeE_conf]; exact le_max_left _ _
  have hytags : y.tags = e.tags ∪ d.tags := by rw [hy, mergeE_tags]
  have hzconf : z.conf = y.conf :=
    le_antisymm
      (mergeAll_conf_le y L y.conf (le_refl _)
        (fun d' hd' => le_trans (hLconf d' hd') hyconf))
      (mergeAll_conf_ge y L)
  have hztags : z.tags = y.tags := by
    rw [hz, mergeAll_tags]
    refine Finset.union_eq_left.mpr ?_
    rw [hytags]
    exact le_trans hLtags Finset.subset_union_left
  have hzid : z.id = e.id := by rw [hz, mergeAll_id, hy, mergeE_id]
  by_cases hc : z.conf ≤ d.conf
  · have hdy : y.conf = d.conf :=
      le_antisymm (hzconf ▸ hc) (by rw [hy, mergeE_conf]; exact le_max_right _ _)
    have hed : e.conf ≤ d.conf := hdy ▸ hyconf
    rw [mergeE_pos hc, hy, mergeE_pos hed]
    ext <;> simp only [overwriteScalars, hzid, hztags, hytags]
    rw [Finset.union_assoc, Finset.union_self]
  · have hde : ¬e.conf ≤ d.conf := by
      intro hcon
      have hmax : y.conf = d.conf := by rw [hy, mergeE_conf]; exact max_eq_right hcon
      rw [← hzconf] at hmax
      exact hc (le_of_eq hmax)
    have hdz_tags : d.tags ⊆ z.tags := by
      rw [hztags, hytags]
      exact Finset.subset_union_right
    have hmz : mergeE z d = z := by
      rw [mergeE_neg hc]
      have h : z.tags ∪ d.tags = z.tags := Finset.union_eq_left.mpr hdz_tags
      ext <;> simp only [h]
    rw [hmz, hz, hy, mergeE_neg hde, mergeAll_tags_congr, hfix]
    have h : e.tags ∪ d.tags ∪ tagsOf L = e.tags ∪ d.tags := by
      rw [Finset.union_assoc, Finset.union_comm d.tags, ← Finset.union_assoc,
        Finset.union_eq_left.mpr hLtags]
    ext <;> simp only [h]

theorem mergeE_newEvent (i : Nat) (d : Draft) : mergeE (newEvent i d) d = newEvent i d := by
  rw [mergeE_pos (le_refl _)]
  ext <;> simp only [overwriteScalars, newEvent, Finset.union_self]


theorem lookupSig_mem {sigs : List (Nat × SigKey)} {k : SigKey} {i : Nat}
    (h : lookupSig sigs k = some i) : (i, k) ∈ sigs := by
  unfold lookupSig at h
  rcases hf : sigs.find? (fun p => p.2 == k) with _ | p
  · rw [hf] at h; cases h
  · rw [hf] at h
    have hp := List.find?_some hf
    have hmem := List.mem_of_find?_eq_some hf
    have hk : p.2 = k := by simpa using hp
    have hi : p.1 = i := by simpa using h
    rw [← hi, ← hk]
    exact hmem

theorem lookupSig_isSome_of_mem {sigs : List (Nat × SigKey)} {k : SigKey} {i : Nat}
    (h : (i, k) ∈ sigs) : (lookupSig sigs k).isSome := by
  unfold lookupSig
  rcases hf : sigs.find? (fun p => p.2 == k) with _ | p
  · exfalso
    have := List.find?_eq_none.mp hf (i, k) h
    simp at this
  · rw [hf]; rfl

theorem lookupSig_append_of_some {sigs l : List (Nat × SigKey)} {k : SigKey} {i : Nat}
    (h : lookupSig sigs k = some i) : lookupSig (sigs ++ l) k = some i := by
  unfold lookupSig at h ⊢
  rw [List.find?_append]
  rcases hf : sigs.find? (fun p => p.2 == k) with _ | p
  · rw [hf] at h; cases h
  · rw [hf] at h ⊢
    exact h

theorem lookupSig_append_right {sigs : List (Nat × SigKey)} {k : SigKey} {i : Nat}
    (h : lookupSig sigs k = none) : lookupSig (sigs ++ [(i, k)]) k = some i := by
  unfold lookupSig at h ⊢
  rw [List.find?_append]
  rcases hf : sigs.find? (fun p => p.2 == k) with _ | p
  · rw [hf]
    simp [List.find?]
  · rw [hf] at h; cases h

theorem insertSig_of_mem {sigs : List (Nat × SigKey)} {p : Nat × SigKey} (h : p ∈ sigs) :
    insertSig sigs p = sigs := by
  unfold insertSig; rw [if_pos h]

theorem insertSig_of_lookup_none {sigs : List (Nat × SigKey)} {k : SigKey} {i : Nat}
    (h : lookupSig sigs k = none) : insertSig sigs (i, k) = sigs ++ [(i, k)] := by
  unfold insertSig
  rw [if_neg]
  intro hmem
  have hs := lookupSig_isSome_of_mem hmem
  rw [h] at hs
  cases hs

theorem processDraft_exact {cfg : EtlConfig} {S : IngestState} {d : Draft} {i : Nat}
    (h : lookupSig S.sigs (exactKey d) = some i) :
    processDraft cfg S d = { S with events := updateEvent S.events i d } := by
  simp only [processDraft, h, insertSig_of_mem (lookupSig_mem h)]

theorem processDraft_fuzzy {cfg : EtlConfig} {S : IngestState} {d : Draft} {e : EventRec}
    (h : lookupSig S.sigs (exactKey d) = none) (hb : bestFuzzy cfg S.events d = some e) :
    processDraft cfg S d =
      { S with events := updateEvent S.events e.id d,
               sigs := S.sigs ++ [(e.id, exactKey d)] } := by
  simp only [processDraft, h, hb, insertSig_of_lookup_none h]

theorem processDraft_new {cfg : EtlConfig} {S : IngestState} {d : Draft}
    (h : lookupSig S.sigs (exactKey d) = none) (hb : bestFuzzy cfg S.events d = none) :
    processDraft cfg S d =
      { events := S.events ++ [newEvent S.nextId d],
        sigs := S.sigs ++ [(S.nextId, exactKey d)],
        nextId := S.nextId + 1 } := by
  simp only [processDraft, h, hb, insertSig_of_lookup_none h]

theorem processDraft_sigs_extend (cfg : EtlConfig) (S : IngestState) (d : Draft) :
    ∃ l, (processDraft cfg S d).sigs = S.sigs ++ l := by
  rcases h : lookupSig S.sigs (exactKey d) with _ | i
  · rcases hb : bestFuzzy cfg S.events d with _ | e
    · exact ⟨[(S.nextId, exactKey d)], by rw [processDraft_new h hb]⟩
    · exact ⟨[(e.id, exactKey d)], by rw [processDraft_fuzzy h hb]⟩
  · exact ⟨[], by rw [processDraft_exact h]; simp⟩

theorem lookupSig_isSome_processDraft_self (cfg : EtlConfig) (S : IngestState) (d : Draft) :
    (lookupSig (processDraft cfg S d).sigs (exactKey d)).isSome := by
  rcases h : lookupSig S.sigs (exactKey d) with _ | i
  · rcases hb : bestFuzzy cfg S.events d with _ | e
    · rw [processDraft_new h hb]
      simp only
      rw [lookupSig_append_right h]
      rfl
    · rw [processDraft_fuzzy h hb]
      simp only
      rw [lookupSig_append_right h]
      rfl
  · rw [processDraft_exact h]
    simp only
    rw [h]
    rfl

theorem lookupSig_isSome_processDraft_mono {cfg : EtlConfig} {S : IngestState} {k : SigKey}
    (h : (lookupSig S.sigs k).isSome) (d : Draft) :
    (lookupSig (processDraft cfg S d).sigs k).isSome := by
  obtain ⟨l, hl⟩ := processDraft_sigs_extend cfg S d
  rw [hl]
  rcases hs : lookupSig S.sigs k with _ | i
  · rw [hs] at h; cases h
  · rw [lookupSig_append_of_some hs]; rfl

theorem processBatch_append (cfg : EtlConfig) (S : IngestState) (B : List Draft) (d : Draft) :
    processBatch cfg S (B ++ [d]) = processDraft cfg (processBatch cfg S B) d := by
  unfold processBatch
  rw [List.foldl_append]
  rfl

theorem keys_present (cfg : EtlConfig) (B : List Draft) (S : IngestState) :
    ∀ d ∈ B, (lookupSig (processBatch cfg S B).sigs (exactKey d)).isSome := by
  induction B using List.reverseRecOn generalizing S with
  | nil => intro d hd; cases hd
  | append_singleton B' d' ih =>
    intro d hd
    rw [processBatch_append]
    rcases List.mem_append.mp hd with h | h
    · exact lookupSig_isSome_processDraft_mono (ih S d h) d'
    · have hd' : d = d' := by simpa using h
      subst hd'
      exact lookupSig_isSome_processDraft_self cfg _ d

theorem bestFuzzy_mem {cfg : EtlConfig} {events : List EventRec} {d : Draft} {e : EventRec}
    (h : bestFuzzy cfg events d = some e) : e ∈ events := by
  unfold bestFuzzy at h
  suffices hgen : ∀ (l : List EventRec) (acc : Option EventRec),
      (∀ b, acc = some b → b ∈ events) → (∀ x ∈ l, x ∈ events) →
      ∀ b, l.foldl (fun best x =>
        match best with
        | none => some x
        | some bb => if simPct bb.title d.title < simPct x.title d.title then some x else some bb)
        acc = some b → b ∈ events by
    exact hgen _ none (by intro b hb; cases hb)
      (fun x hx => (List.mem_filter.mp hx).1) e h
  intro l
  induction l with
  | nil => intro acc hacc _ b hb; exact hacc b hb
  | cons x l ihl =>
    intro acc hacc hl b hb
    simp only [List.foldl_cons] at hb
    refine ihl _ ?_ (fun y hy => hl y (List.mem_cons_of_mem _ hy)) b hb
    intro b' hb'
    rcases acc with _ | bb
    · simp at hb'
      exact hb' ▸ hl x (List.mem_cons_self _ _)
    · simp only at hb'
      split at hb'
      · exact (Option.some.inj hb') ▸ hl x (List.mem_cons_self _ _)
      · exact (Option.some.inj hb') ▸ hacc bb rfl

def Inv (S : IngestState) : Prop :=
  (∀ e ∈ S.events, e.id < S.nextId) ∧ (∀ p ∈ S.sigs, p.1 < S.nextId)

theorem updateEvent_mem {events : List EventRec} {i : Nat} {d : Draft} {e' : EventRec}
    (h : e' ∈ updateEvent events i d) :
    ∃ e ∈ events, e' = if e.id = i then mergeE e d else e := by
  unfold updateEvent at h
  obtain ⟨e, he, hee⟩ := List.mem_map.mp h
  exact ⟨e, he, hee.symm⟩

theorem updateEvent_id_mem {events : List EventRec} {i : Nat} {d : Draft} {e' : EventRec}
    (h : e' ∈ updateEvent events i d) : ∃ e ∈ events, e'.id = e.id := by
  obtain ⟨e, he, hee⟩ := updateEvent_mem h
  refine ⟨e, he, ?_⟩
  rw [hee]
  split
  · exact mergeE_id e d
  · rfl

theorem Inv_processDraft {cfg : EtlConfig} {S : IngestState} (hInv : Inv S) (d : Draft) :
    Inv (processDraft cfg S d) := by
  obtain ⟨hev, hsig⟩ := hInv
  rcases h : lookupSig S.sigs (exactKey d) with _ | i
  · rcases hb : bestFuzzy cfg S.events d with _ | e
    · rw [processDraft_new h hb]
      constructor
      · intro e' he'
        rcases List.mem_append.mp he' with h1 | h1
        · exact Nat.lt_succ_of_lt (hev e' h1)
        · have he'' : e' = newEvent S.nextId d := by simpa using h1
          rw [he'']
          exact Nat.lt_succ_self _
      · intro p hp
        rcases List.mem_append.mp hp with h1 | h1
        · exact Nat.lt_succ_of_lt (hsig p h1)
        · have hp' : p = (S.nextId, exactKey d) := by simpa using h1
          rw [hp']
          exact Nat.lt_succ_self _
    · rw [processDraft_fuzzy h hb]
      constructor
      · intro e' he'
        obtain ⟨e0, he0, hid⟩ := updateEvent_id_mem he'
        rw [hid]
        exact hev e0 he0
      · intro p hp
        rcases List.mem_append.mp hp with h1 | h1
        · exact hsig p h1
        · have hp' : p = (e.id, exactKey d) := by simpa using h1
          rw [hp']
          exact hev e (bestFuzzy_mem hb)
  · rw [processDraft_exact h]
    constructor
    · intro e' he'
      obtain ⟨e0, he0, hid⟩ := updateEvent_id_mem he'
      rw [hid]
      exact hev e0 he0
    · exact hsig

theorem Inv_processBatch {cfg : EtlConfig} {S : IngestState} (hInv : Inv S) (B : List Draft) :
    Inv (processBatch cfg S B) := by
  induction B generalizing S with
  | nil => exact hInv
  | cons d B ih => exact ih (Inv_processDraft hInv d)

theorem Inv_empty : Inv emptyState := by
  constructor <;> intro x hx <;> cases hx



def touchFilter (sigs : List (Nat × SigKey)) (i : Nat) (B : List Draft) : List Draft :=
  B.filter (fun d => lookupSig sigs (exactKey d) == some i)

theorem lookupSig_stable {sigs l : List (Nat × SigKey)} {k : SigKey}
    (h : (lookupSig sigs k).isSome) : lookupSig (sigs ++ l) k = lookupSig sigs k := by
  rcases hs : lookupSig sigs k with _ | j
  · rw [hs] at h; cases h
  · exact lookupSig_append_of_some hs

theorem touchFilter_congr {sigs sigs2 : List (Nat × SigKey)} {B : List Draft} {i : Nat}
    (h : ∀ d ∈ B, lookupSig sigs2 (exactKey d) = lookupSig sigs (exactKey d)) :
    touchFilter sigs2 i B = touchFilter sigs i B :=
  List.filter_congr (fun d hd => by rw [h d hd])

theorem touchFilter_append_single (sigs : List (Nat × SigKey)) (i : Nat) (B : List Draft)
    (d : Draft) :
    touchFilter sigs i (B ++ [d]) =
      touchFilter sigs i B ++
        (cond (lookupSig sigs (exactKey d) == some i) [d] []) := by
  unfold touchFilter
  rw [List.filter_append]
  congr 1

theorem touchFilter_nil_of_none {sigs : List (Nat × SigKey)} {B : List Draft} {i : Nat}
    (h : ∀ d ∈ B, (lookupSig sigs (exactKey d) == some i) = false) :
    touchFilter sigs i B = [] := by
  unfold touchFilter
  rw [List.filter_eq_nil_iff]
  intro d hd
  rw [h d hd]
  exact Bool.false_ne_true

theorem mergeAll_single_new (n : Nat) (d : Draft) :
    mergeAll (newEvent n d) [d] = newEvent n d := by
  rw [mergeAll_cons, mergeE_newEvent, mergeAll_nil]

theorem events_replay (cfg : EtlConfig) (B : List Draft) :
    ∀ S : IngestState, Inv S →
      ∀ e₁ ∈ (processBatch cfg S B).events,
        mergeAll e₁ (touchFilter (processBatch cfg S B).sigs e₁.id B) = e₁ := by
  induction B using List.reverseRecOn with
  | nil => intro S _ e₁ _; rfl
  | append_singleton B' d ih =>
    intro S hInv e₁ he₁
    rw [processBatch_append] at he₁ ⊢
    have hInvT : Inv (processBatch cfg S B') := Inv_processBatch hInv B'
    have hkeys : ∀ d' ∈ B',
        (lookupSig (processBatch cfg S B').sigs (exactKey d')).isSome :=
      keys_present cfg B' S
    set T := processBatch cfg S B' with hT
    have ihT : ∀ e ∈ T.events, mergeAll e (touchFilter T.sigs e.id B') = e :=
      fun e he => ih S hInv e he
    rcases h : lookupSig T.sigs (exactKey d) with _ | i
    · rcases hb : bestFuzzy cfg T.events d with _ | ev
      · -- a brand new event is created
        rw [processDraft_new h hb] at he₁ ⊢
        simp only at he₁ ⊢
        have hstable : ∀ d' ∈ B',
            lookupSig (T.sigs ++ [(T.nextId, exactKey d)]) (exactKey d')
              = lookupSig T.sigs (exactKey d') :=
          fun d' hd' => lookupSig_stable (hkeys d' hd')
        have hlookd : lookupSig (T.sigs ++ [(T.nextId, exactKey d)]) (exactKey d)
            = some T.nextId := lookupSig_append_right h
        rcases List.mem_append.mp he₁ with hmem | hmem
        · -- an old event: the new draft does not touch it
          have hlt : e₁.id < T.nextId := hInvT.1 e₁ hmem
          rw [touchFilter_append_single, touchFilter_congr hstable, hlookd]
          have hne : (some T.nextId == some e₁.id) = false := by
            simp [Nat.ne_of_gt hlt]
          rw [hne, cond_false, List.append_nil]
          exact ihT e₁ hmem
        · -- the new event itself: only the last draft touches it
          have he₁' : e₁ = newEvent T.nextId d := by simpa using hmem
          subst he₁'
          have hid : (newEvent T.nextId d).id = T.nextId := rfl
          rw [touchFilter_append_single, touchFilter_congr hstable, hlookd, hid]
          have hfil : touchFilter T.sigs T.nextId B' = [] := by
            apply touchFilter_nil_of_none
            intro d' hd'
            rcases hs : lookupSig T.sigs (exactKey d') with _ | j
            · rfl
            · have hj : j < T.nextId := hInvT.2 (j, exactKey d') (lookupSig_mem hs)
              simp [Nat.ne_of_lt hj]
          rw [hfil]
          have hbeq : (some T.nextId == some T.nextId) = true := by simp
          rw [hbeq, cond_true, List.nil_append]
          exact mergeAll_single_new T.nextId d
      · -- fuzzy update of an existing event
        rw [processDraft_fuzzy h hb] at he₁ ⊢
        simp only at he₁ ⊢
        have hstable : ∀ d' ∈ B',
            lookupSig (T.sigs ++ [(ev.id, exactKey d)]) (exactKey d')
              = lookupSig T.sigs (exactKey d') :=
          fun d' hd' => lookupSig_stable (hkeys d' hd')
        have hlookd : lookupSig (T.sigs ++ [(ev.id, exactKey d)]) (exactKey d)
            = some ev.id := lookupSig_append_right h
        obtain ⟨e, he, hee⟩ := updateEvent_mem he₁
        by_cases hid : e.id = ev.id
        · have he₁e : e₁ = mergeE e d := by rw [hee, if_pos hid]
          have hide : e₁.id = e.id := by rw [he₁e, mergeE_id]
          rw [touchFilter_append_single, touchFilter_congr hstable, hlookd]
          have heq : (some ev.id == some e₁.id) = true := by
            simp [hide, hid]
          rw [heq, cond_true, hide, mergeAll_append, he₁e]
          exact merge_absorb e _ d (ihT e he)
        · have he₁e : e₁ = e := by rw [hee, if_neg hid]
          have hide : e₁.id = e.id := by rw [he₁e]
          rw [touchFilter_append_single, touchFilter_congr hstable, hlookd]
          have hne : (some ev.id == some e₁.id) = false := by
            rw [hide]
            simp only [beq_eq_false_iff_ne, ne_eq, Option.some.injEq]
            intro hc
            exact hid hc.symm
          rw [hne, cond_false, List.append_nil, hide, he₁e]
          exact ihT e he
    · -- exact update of an existing event
      rw [processDraft_exact h] at he₁ ⊢
      simp only at he₁ ⊢
      obtain ⟨e, he, hee⟩ := updateEvent_mem he₁
      by_cases hid : e.id = i
      · have he₁e : e₁ = mergeE e d := by rw [hee, if_pos hid]
        have hide : e₁.id = e.id := by rw [he₁e, mergeE_id]
        rw [touchFilter_append_single, h]
        have heq : (some i == some e₁.id) = true := by
          simp [hide, hid]
        rw [heq, cond_true, hide, mergeAll_append, he₁e]
        exact merge_absorb e _ d (ihT e he)
      · have he₁e : e₁ = e := by rw [hee, if_neg hid]
        have hide : e₁.id = e.id := by rw [he₁e]
        rw [touchFilter_append_single, h]
        have hne : (some i == some e₁.id) = false := by
          rw [hide]
          simp only [beq_eq_false_iff_ne, ne_eq, Option.some.injEq]
          intro hc
          exact hid hc.symm
        rw [hne, cond_false, List.append_nil, hide, he₁e]
        exact ihT e he



def updateAll (sigs : List (Nat × SigKey)) (evs : List EventRec) (B : List Draft) :
    List EventRec :=
  B.foldl (fun es d => updateEvent es ((lookupSig sigs (exactKey d)).getD 0) d) evs

theorem updateAll_cons (sigs : List (Nat × SigKey)) (evs : List EventRec) (d : Draft)
    (B : List Draft) :
    updateAll sigs evs (d :: B) =
      updateAll sigs (updateEvent evs ((lookupSig sigs (exactKey d)).getD 0) d) B := rfl

theorem processBatch_all_updates (cfg : EtlConfig) (B : List Draft) :
    ∀ T : IngestState, (∀ d ∈ B, (lookupSig T.sigs (exactKey d)).isSome) →
      processBatch cfg T B = { T with events := updateAll T.sigs T.events B } := by
  induction B with
  | nil => intro T _; rfl
  | cons d B ih =>
    intro T hkeys
    have hd := hkeys d (List.mem_cons_self _ _)
    rcases hs : lookupSig T.sigs (exactKey d) with _ | i
    · rw [hs] at hd; cases hd
    · show processBatch cfg (processDraft cfg T d) B = _
      rw [processDraft_exact hs]
      have harg : ∀ d' ∈ B,
          (lookupSig (IngestState.mk (updateEvent T.events i d) T.sigs T.nextId).sigs
            (exactKey d')).isSome :=
        fun d' hd' => hkeys d' (List.mem_cons_of_mem _ hd')
      rw [ih _ harg]
      rw [updateAll_cons, hs]
      rfl

theorem foldl_updateEvent_eq_map (τ : Draft → Nat) (B : List Draft) :
    ∀ evs : List EventRec,
      B.foldl (fun es d => updateEvent es (τ d) d) evs =
        evs.map (fun e => mergeAll e (B.filter (fun d => τ d == e.id))) := by
  induction B with
  | nil =>
    intro evs
    simp only [List.foldl_nil, List.filter_nil, mergeAll_nil]
    exact (List.map_id evs).symm
  | cons d B ih =>
    intro evs
    rw [List.foldl_cons, ih]
    unfold updateEvent
    rw [List.map_map]
    apply List.map_eq_map_iff.mpr
    intro e _
    simp only [Function.comp_apply]
    by_cases hid : e.id = τ d
    · rw [if_pos hid, List.filter_cons]
      have hbeq : (τ d == e.id) = true := by simp [hid]
      rw [hbeq]
      simp only [if_pos, mergeAll_cons]
      congr 1
      apply List.filter_congr
      intro d' _
      rw [mergeE_id]
    · rw [if_neg hid, List.filter_cons]
      have hbeq : (τ d == e.id) = false := by
        simp only [beq_eq_false_iff_ne, ne_eq]
        intro hc
        exact hid hc.symm
      rw [hbeq]
      simp only [Bool.false_eq_true, if_false]

theorem sigKey_mem_isSome {sigs : List (Nat × SigKey)} {k : SigKey}
    (h : k ∈ sigs.map Prod.snd) : (lookupSig sigs k).isSome := by
  obtain ⟨p, hp, hpk⟩ := List.mem_map.mp h
  have : (p.1, k) ∈ sigs := by
    rw [← hpk]
    exact hp
  exact lookupSig_isSome_of_mem this

theorem sigKeys_nodup_processDraft {cfg : EtlConfig} {S : IngestState}
    (h : (S.sigs.map Prod.snd).Nodup) (d : Draft) :
    ((processDraft cfg S d).sigs.map Prod.snd).Nodup := by
  have hfresh : lookupSig S.sigs (exactKey d) = none →
      exactKey d ∉ S.sigs.map Prod.snd := by
    intro hnone hmem
    have := sigKey_mem_isSome hmem
    rw [hnone] at this
    cases this
  rcases hs : lookupSig S.sigs (exactKey d) with _ | i
  · rcases hb : bestFuzzy cfg S.events d with _ | ev
    · rw [processDraft_new hs hb]
      simp only [List.map_append, List.map_cons, List.map_nil]
      rw [List.nodup_append]
      exact ⟨h, List.nodup_singleton _, by
        intro a ha hb'
        have : a = exactKey d := by simpa using hb'
        exact hfresh hs (this ▸ ha)⟩
    · rw [processDraft_fuzzy hs hb]
      simp only [List.map_append, List.map_cons, List.map_nil]
      rw [List.nodup_append]
      exact ⟨h, List.nodup_singleton _, by
        intro a ha hb'
        have : a = exactKey d := by simpa using hb'
        exact hfresh hs (this ▸ ha)⟩
  · rw [processDraft_exact hs]
    exact h

theorem sigKeys_nodup_processBatch {cfg : EtlConfig} {S : IngestState}
    (h : (S.sigs.map Prod.snd).Nodup) (B : List Draft) :
    ((processBatch cfg S B).sigs.map Prod.snd).Nodup := by
  induction B generalizing S with
  | nil => exact h
  | cons d B ih => exact ih (sigKeys_nodup_processDraft h d)

theorem processBatch_idem (cfg : EtlConfig) (B : List Draft) :
    processBatch cfg (processBatch cfg emptyState B) B = processBatch cfg emptyState B := by
  have hkeys : ∀ d ∈ B,
      (lookupSig (processBatch cfg emptyState B).sigs (exactKey d)).isSome :=
    keys_present cfg B emptyState
  set S1 := processBatch cfg emptyState B with hS1
  have hfix := events_replay cfg B emptyState Inv_empty
  rw [← hS1] at hfix
  rw [processBatch_all_updates cfg B S1 hkeys]
  have hbridge : updateAll S1.sigs S1.events B =
      S1.events.map
        (fun e => mergeAll e
          (B.filter (fun d => (lookupSig S1.sigs (exactKey d)).getD 0 == e.id))) :=
    foldl_updateEvent_eq_map (fun d => (lookupSig S1.sigs (exactKey d)).getD 0) B S1.events
  rw [hbridge]
  have hmap : S1.events.map
      (fun e => mergeAll e
        (B.filter (fun d => (lookupSig S1.sigs (exactKey d)).getD 0 == e.id))) = S1.events := by
    have h1 : ∀ e ∈ S1.events,
        mergeAll e (B.filter (fun d => (lookupSig S1.sigs (exactKey d)).getD 0 == e.id)) = e := by
      intro e he
      have hfil : B.filter (fun d => (lookupSig S1.sigs (exactKey d)).getD 0 == e.id) =
          touchFilter S1.sigs e.id B := by
        apply List.filter_congr
        intro d hd
        have hds := hkeys d hd
        rcases hsd : lookupSig S1.sigs (exactKey d) with _ | j
        · rw [hsd] at hds; cases hds
        · rw [Option.getD_some]
          show (j == e.id) = (some j == some e.id)
          cases hj : (j == e.id)
          · simp only [beq_eq_false_iff_ne, ne_eq] at hj
            simp [hj]
          · simp only [beq_iff_eq] at hj
            simp [hj]
      rw [hfil]
      exact hfix e he
    have h2 : S1.events.map
        (fun e => mergeAll e
          (B.filter (fun d => (lookupSig S1.sigs (exactKey d)).getD 0 == e.id)))
        = S1.events.map id :=
      List.map_eq_map_iff.mpr (fun e he => h1 e he)
    rw [h2, List.map_id]
  rw [hmap]

/-- C3: ingestion is idempotent. Processing the same raw batch a second time
after a first pass from the empty store reproduces the first-pass state
exactly: zero new events, identical signature table, and zero net field
change on every stored event; moreover the signature table of the first pass
already carries no duplicate rows (its exact keys are pairwise distinct). -/
theorem c3_ingest_idempotent (cfg : EtlConfig) (raws : List RawRecord) :
    ingestRaw cfg (ingestRaw cfg emptyState raws) raws = ingestRaw cfg emptyState raws ∧
    (ingestRaw cfg (ingestRaw cfg emptyState raws) raws).events.length
      = (ingestRaw cfg emptyState raws).events.length ∧
    ((ingestRaw cfg emptyState raws).sigs.map Prod.snd).Nodup := by
  refine ⟨processBatch_idem cfg (prepareBatch cfg raws), ?_, ?_⟩
  · rw [ingestRaw, ingestRaw, processBatch_idem cfg (prepareBatch cfg raws)]
  · exact sigKeys_nodup_processBatch (by simp [emptyState]) (prepareBatch cfg raws)


/-- Modelled from the spec: the provenance identity of a canonical event,
its source identifier and nullable source-native id, together with the
descriptive fields an update overwrites. -/
structure SourcedEvent where
  source : String
  nativeId : Option String
  title : String
  start : Int
deriving DecidableEq

/-- Two records carry the same (source, source-native id) pair; the pair only
binds when the native id is present (a null id never matches). -/
def sameProvenance (e c : SourcedEvent) : Bool :=
  e.source == c.source && e.nativeId.isSome && e.nativeId == c.nativeId

/-- Modelled from the spec: the store upsert keyed by (source, source-native
id): a matching candidate overwrites the stored event in place, otherwise the
candidate is appended as a new event. -/
def upsertBySource (store : List SourcedEvent) (c : SourcedEvent) : List SourcedEvent :=
  if store.any (fun e => sameProvenance e c) then
    store.map (fun e => if sameProvenance e c then c else e)
  else store ++ [c]

/-- States of the canonical record set reachable by upserting a sequence of
candidates into the empty store. -/
def ingestSourced (cs : List SourcedEvent) : List SourcedEvent :=
  cs.foldl upsertBySource []

/-- Number of stored events carrying a given (source, source-native id)
pair. -/
def provCount (store : List SourcedEvent) (s : String) (nid : String) : Nat :=
  (store.filter (fun e => e.source == s && e.nativeId == some nid)).length

/-- The data-model invariant: at most one canonical event per (source,
source-native id) pair. -/
def provUnique (store : List SourcedEvent) : Prop :=
  ∀ s nid, provCount store s nid ≤ 1

theorem sameProvenance_fields {e c : SourcedEvent} (h : sameProvenance e c = true) :
    e.source = c.source ∧ e.nativeId = c.nativeId ∧ e.nativeId.isSome := by
  unfold sameProvenance at h
  simp only [Bool.and_eq_true, beq_iff_eq] at h
  exact ⟨h.1.1, h.2, h.1.2⟩

theorem filter_map_length_eq {f : SourcedEvent → SourcedEvent} {p : SourcedEvent → Bool}
    {store : List SourcedEvent} (h : ∀ e ∈ store, p (f e) = p e) :
    ((store.map f).filter p).length = (store.filter p).length := by
  induction store with
  | nil => rfl
  | cons a l ih =>
    simp only [List.map_cons, List.filter_cons]
    rw [h a (List.mem_cons_self _ _)]
    cases hp : p a
    · simp only [Bool.false_eq_true, if_false]
      exact ih (fun e he => h e (List.mem_cons_of_mem _ he))
    · simp only [if_pos, List.length_cons]
      rw [ih (fun e he => h e (List.mem_cons_of_mem _ he))]

theorem provUnique_upsert {store : List SourcedEvent} (h : provUnique store)
    (c : SourcedEvent) : provUnique (upsertBySource store c) := by
  intro s nid
  unfold upsertBySource
  cases hany : store.any (fun e => sameProvenance e c)
  · simp only [Bool.false_eq_true, if_false]
    unfold provCount
    rw [List.filter_append]
    cases hpc : (fun e => e.source == s && e.nativeId == some nid) c
    · simp only [List.filter_cons, List.filter_nil, hpc, Bool.false_eq_true, if_false,
        List.append_nil]
      exact h s nid
    · have hempty : store.filter (fun e => e.source == s && e.nativeId == some nid) = [] := by
        rw [List.filter_eq_nil_iff]
        intro e he hpe
        have hprov : sameProvenance e c = true := by
          simp only [Bool.and_eq_true, beq_iff_eq] at hpe hpc
          unfold sameProvenance
          simp only [Bool.and_eq_true, beq_iff_eq]
          refine ⟨⟨hpe.1.trans hpc.1.symm, ?_⟩, ?_⟩
          · rw [hpe.2]; rfl
          · rw [hpe.2, hpc.2]
        have : store.any (fun e => sameProvenance e c) = true :=
          List.any_eq_true.mpr ⟨e, he, hprov⟩
        rw [hany] at this
        cases this
      rw [hempty]
      simp [hpc]
  · simp only [if_pos]
    unfold provCount
    rw [show ((store.map (fun e => if sameProvenance e c then c else e)).filter
        (fun e => e.source == s && e.nativeId == some nid)).length
        = ((store.filter (fun e => e.source == s && e.nativeId == some nid)).length) from ?_]
    · exact h s nid
    · apply filter_map_length_eq
      intro e _
      cases hpe : sameProvenance e c
      · simp
      · obtain ⟨h1, h2, _⟩ := sameProvenance_fields hpe
        simp [h1, h2]

theorem provUnique_foldl (cs : List SourcedEvent) :
    ∀ store : List SourcedEvent, provUnique store → provUnique (cs.foldl upsertBySource store) := by
  induction cs with
  | nil => intro store h; exact h
  | cons c cs ih =>
    intro store h
    exact ih _ (provUnique_upsert h c)

theorem provUnique_nil : provUnique [] := by
  intro s nid
  exact Nat.le_of_lt Nat.one_pos

/-- C6: every state reachable by upserts from the empty store has at most one
canonical event per (source, source-native id) pair, and a candidate that
matches a stored event overwrites in place: the store size is unchanged and
the candidate replaces the matched event, so no second event with the same
pair is ever created. -/
theorem c6_provenance_uniqueness :
    (∀ cs : List SourcedEvent, provUnique (ingestSourced cs)) ∧
    (∀ (store : List SourcedEvent) (c : SourcedEvent),
      (∃ e ∈ store, sameProvenance e c = true) →
      (upsertBySource store c).length = store.length ∧ c ∈ upsertBySource store c) := by
  constructor
  · intro cs
    exact provUnique_foldl cs [] provUnique_nil
  · intro store c hma
    obtain ⟨e, he, hprov⟩ := hma
    have hany : store.any (fun e => sameProvenance e c) = true :=
      List.any_eq_true.mpr ⟨e, he, hprov⟩
    unfold upsertBySource
    rw [hany]
    simp only [if_pos]
    constructor
    · exact List.length_map _ _
    · exact List.mem_map.mpr ⟨e, he, by rw [if_pos hprov]⟩

def ticketmasterEventA : SourcedEvent :=
  { source := "mcp-ticketmaster", nativeId := some "tm-1",
    title := "Indie Rock Night", start := 1717273800 }

def ticketmasterEventB : SourcedEvent :=
  { source := "mcp-ticketmaster", nativeId := some "tm-1",
    title := "Indie Rock Night, extra date", start := 1717275600 }

/-- Witness for C6: an updated Ticketmaster record with the same native id
overwrites the stored one in place. -/
theorem c6_provenance_uniqueness_witness :
    (upsertBySource [ticketmasterEventA] ticketmasterEventB).length
        = [ticketmasterEventA].length ∧
      ticketmasterEventB ∈ upsertBySource [ticketmasterEventA] ticketmasterEventB :=
  c6_provenance_uniqueness.2 [ticketmasterEventA] ticketmasterEventB
    ⟨ticketmasterEventA, by decide, by decide⟩

/-- Modelled from the spec: the normalized score a retrieval signal assigns
to an event id, zero when the id is absent from that signal (no penalty for
absence). -/
def lookupScore (l : List (Nat × ℚ)) (i : Nat) : ℚ :=
  ((l.find? (fun p => p.1 == i)).map (fun p => p.2)).getD 0

/-- Modelled from the spec: union of the candidate event ids of the lexical
and vector sub-searches. -/
def candidateIds (lex vec : List (Nat × ℚ)) : List Nat :=
  (lex.map Prod.fst ++ vec.map Prod.fst).dedup

/-- Modelled from the spec: merge step of the hybrid search engine, scoring
every candidate id with the weighted sum of its normalized lexical score and
normalized vector similarity. -/
def hybridMerge (wl wv : ℚ) (lex vec : List (Nat × ℚ)) : List (Nat × ℚ) :=
  (candidateIds lex vec).map (fun i => (i, wl * lookupScore lex i + wv * lookupScore vec i))

/-- Result order of the hybrid search: higher combined score first, ties
broken by ascending event id (stable sort on ties). -/
def rankRel (x y : Nat × ℚ) : Prop :=
  y.2 < x.2 ∨ (x.2 = y.2 ∧ x.1 ≤ y.1)

instance : DecidableRel rankRel := fun x y =>
  inferInstanceAs (Decidable (y.2 < x.2 ∨ (x.2 = y.2 ∧ x.1 ≤ y.1)))

instance : IsTotal (Nat × ℚ) rankRel :=
  ⟨by
    intro x y
    rcases lt_trichotomy x.2 y.2 with h | h | h
    · exact Or.inr (Or.inl h)
    · rcases le_total x.1 y.1 with h1 | h1
      · exact Or.inl (Or.inr ⟨h, h1⟩)
      · exact Or.inr (Or.inr ⟨h.symm, h1⟩)
    · exact Or.inl (Or.inl h)⟩

instance : IsTrans (Nat × ℚ) rankRel :=
  ⟨by
    intro a b c hab hbc
    rcases hab with h1 | h1
    · rcases hbc with h2 | h2
      · exact Or.inl (lt_trans h2 h1)
      · exact Or.inl (h2.1 ▸ h1)
    · rcases hbc with h2 | h2
      · exact Or.inl (h1.1.symm ▸ h2)
      · exact Or.inr ⟨h1.1.trans h2.1, le_trans h1.2 h2.2⟩⟩

/-- Modelled from the spec: the ranked result list, the top N candidates by
combined score with ties stable-sorted by event id. -/
def hybridSearch (wl wv : ℚ) (n : Nat) (lex vec : List (Nat × ℚ)) : List (Nat × ℚ) :=
  (List.insertionSort rankRel (hybridMerge wl wv lex vec)).take n

/-- C5: the hybrid search result is sorted by descending combined score with
ties broken by event id, every returned candidate carries exactly the
weighted sum of its normalized lexical and vector scores, every returned
candidate ranks at least as high as every candidate cut off by the limit, and
the result length is the limit capped by the number of candidates. -/
theorem c5_hybrid_ranking (wl wv : ℚ) (n : Nat) (lex vec : List (Nat × ℚ)) :
    List.Sorted rankRel (hybridSearch wl wv n lex vec) ∧
    (∀ p ∈ hybridSearch wl wv n lex vec,
      p.2 = wl * lookupScore lex p.1 + wv * lookupScore vec p.1) ∧
    (∀ p ∈ hybridSearch wl wv n lex vec,
      ∀ q ∈ (List.insertionSort rankRel (hybridMerge wl wv lex vec)).drop n, rankRel p q) ∧
    (hybridSearch wl wv n lex vec).length = min n (candidateIds lex vec).length := by
  have hsorted : List.Sorted rankRel (List.insertionSort rankRel (hybridMerge wl wv lex vec)) :=
    List.sorted_insertionSort rankRel _
  have hperm := List.perm_insertionSort rankRel (hybridMerge wl wv lex vec)
  refine ⟨?_, ?_, ?_, ?_⟩
  · exact List.Pairwise.sublist (List.take_sublist n _) hsorted
  · intro p hp
    have hp' : p ∈ hybridMerge wl wv lex vec :=
      hperm.mem_iff.mp (List.mem_of_mem_take hp)
    obtain ⟨i, _, hip⟩ := List.mem_map.mp hp'
    rw [← hip]
  · intro p hp q hq
    have hpw : List.Pairwise rankRel
        ((List.insertionSort rankRel (hybridMerge wl wv lex vec)).take n ++
          (List.insertionSort rankRel (hybridMerge wl wv lex vec)).drop n) := by
      rw [List.take_append_drop]
      exact hsorted
    exact (List.pairwise_append.mp hpw).2.2 p hp q hq
  · unfold hybridSearch
    rw [List.length_take, hperm.length_eq]
    unfold hybridMerge
    rw [List.length_map]

/-- Concrete evaluation of the hybrid search on a two-candidate example: the
reinforced candidate 2 (present in both signals) ranks above candidate 1. -/
theorem hybridSearch_example_eval :
    hybridSearch (mkRat 1 2) (mkRat 1 2) 2 [(1, mkRat 1 2), (2, 1)] [(2, mkRat 1 2)]
      = [(2, mkRat 3 4), (1, mkRat 1 4)] := by
  show List.take 2 (List.insertionSort rankRel
    [(1, mkRat 1 2 * lookupScore [(1, mkRat 1 2), (2, 1)] 1
        + mkRat 1 2 * lookupScore [(2, mkRat 1 2)] 1),
     (2, mkRat 1 2 * lookupScore [(1, mkRat 1 2), (2, 1)] 2
        + mkRat 1 2 * lookupScore [(2, mkRat 1 2)] 2)]) = _
  have h1 : mkRat 1 2 * lookupScore [(1, mkRat 1 2), (2, 1)] 1
      + mkRat 1 2 * lookupScore [(2, mkRat 1 2)] 1 = mkRat 1 4 := by
    simp [lookupScore, List.find?]
    try norm_num [Rat.mkRat_eq_div]
  have h2 : mkRat 1 2 * lookupScore [(1, mkRat 1 2), (2, 1)] 2
      + mkRat 1 2 * lookupScore [(2, mkRat 1 2)] 2 = mkRat 3 4 := by
    simp [lookupScore, List.find?]
    try norm_num [Rat.mkRat_eq_div]
  rw [h1, h2]
  simp only [List.insertionSort, List.orderedInsert]
  have hrel : ¬rankRel (1, mkRat 1 4) (2, mkRat 3 4) := by
    unfold rankRel
    push_neg
    constructor
    · norm_num [Rat.mkRat_eq_div]
    · intro hc
      exfalso
      norm_num [Rat.mkRat_eq_div] at hc
  rw [if_neg hrel]
  rfl

/-- Witness for C5: on the two-candidate example, the score reported for the
top result is the weighted sum of its two signal scores. -/
theorem c5_hybrid_ranking_witness :
    ((2, mkRat 3 4) : Nat × ℚ).2
      = mkRat 1 2 * lookupScore [(1, mkRat 1 2), (2, 1)] ((2, mkRat 3 4) : Nat × ℚ).1
        + mkRat 1 2 * lookupScore [(2, mkRat 1 2)] ((2, mkRat 3 4) : Nat × ℚ).1 :=
  (c5_hybrid_ranking (mkRat 1 2) (mkRat 1 2) 2 [(1, mkRat 1 2), (2, 1)] [(2, mkRat 1 2)]).2.1
    (2, mkRat 3 4) (by rw [hybridSearch_example_eval]; exact List.mem_cons_self _ _)

end Cityvibe
